import Mathlib

/-!
Verification of the `nxp_simtemp` simulated temperature-sensor driver
(`src/kernel/nxp_simtemp.c`) against its natural-language specification.

The C code is shallowly embedded: machine integers become `Nat`/`Int` with
explicit reduction modulo `2^32` (or `2^64`) where the C types wrap, the ring
buffer becomes a structure over a `List` of samples, and the stateful
operations become pure state-passing functions.  Fallible operations return
`Option`/explicit error codes.
-/

namespace NxpSimtemp

/-! ## Machine-integer model

`u32` values are `Nat`s reduced modulo `2^32`; `s32` values are `Int`s obtained
by two's-complement reinterpretation of a `u32` bit pattern. -/

/-- `2^32`, the modulus of C `u32`/`unsigned int` arithmetic. -/
def U32_MOD : Nat := 4294967296

/-- `2^64`, the modulus of C `u64` arithmetic. -/
def U64_MOD : Nat := 18446744073709551616

/-- `INT32_MAX`. -/
def S32_MAX : Int := 2147483647

/-- `INT32_MIN`. -/
def S32_MIN : Int := -2147483648

/-- Reinterpret a `u32` bit pattern (a `Nat`, reduced mod `2^32`) as a C
`s32` value (two's complement). -/
def toS32 (n : Nat) : Int :=
  if n % U32_MOD < 2147483648 then ((n % U32_MOD : Nat) : Int)
  else ((n % U32_MOD : Nat) : Int) - (U32_MOD : Int)

/-- Truncate an integer to its `u32` bit pattern. -/
def toU32 (i : Int) : Nat := (i % (U32_MOD : Int)).toNat

/-- Wrap an integer into the `s32` range, as two's-complement overflow does. -/
def wrapS32 (i : Int) : Int := toS32 (toU32 i)

theorem toU32_lt (i : Int) : toU32 i < U32_MOD := by
  unfold toU32 U32_MOD
  omega

theorem toU32_coe (n : Nat) : toU32 (n : Int) = n % U32_MOD := by
  unfold toU32 U32_MOD
  omega

/-- `wrapS32` is the identity on integers already in the `s32` range. -/
theorem wrapS32_eq_self {i : Int} (h1 : S32_MIN ≤ i) (h2 : i ≤ S32_MAX) :
    wrapS32 i = i := by
  unfold wrapS32 toS32 toU32 U32_MOD at *
  unfold S32_MIN S32_MAX at *
  split <;> omega

/-! ## Sample record (`struct simtemp_sample`) -/

/-- Flag bit 0: set on every generated record. -/
def SIMTEMP_FLAG_NEW_SAMPLE : Nat := 0x01

/-- Flag bit 1: set when the sampled temperature strictly exceeds the
threshold. -/
def SIMTEMP_FLAG_THRESHOLD_EXCEEDED : Nat := 0x02

/-- `struct simtemp_sample`: a 16-byte record (`u64` timestamp, `s32`
temperature in milli-Celsius, `u32` flags). -/
structure simtemp_sample where
  timestamp_ns : Nat
  temp_mC : Int
  flags : Nat
deriving DecidableEq, Repr

/-- The all-zero sample, the content of freshly `memset` buffer slots. -/
def sample_zero : simtemp_sample := ⟨0, 0, 0⟩

/-- `sizeof(struct simtemp_sample)`: the structure is packed, 8 + 4 + 4. -/
def SAMPLE_SIZE : Nat := 16

/-! ## Ring buffer (`struct simtemp_ring_buffer`) -/

/-- `RING_BUFFER_SIZE`: number of slots (a power of two). -/
def RING_BUFFER_SIZE : Nat := 64

/-- Index arithmetic of the driver: `n & (RING_BUFFER_SIZE - 1)`. -/
def rb_mask (n : Nat) : Nat := n &&& (RING_BUFFER_SIZE - 1)

/-- For the power-of-two size, masking is reduction mod the size. -/
theorem rb_mask_eq_mod (n : Nat) : rb_mask n = n % RING_BUFFER_SIZE := by
  have h := Nat.and_pow_two_sub_one_eq_mod n 6
  simpa [rb_mask, RING_BUFFER_SIZE] using h

/-- `struct simtemp_ring_buffer` (the spinlock guards the C structure; the
embedding makes every operation atomic, so the lock has no residue). -/
structure simtemp_ring_buffer where
  samples : List simtemp_sample
  head : Nat
  tail : Nat
deriving DecidableEq, Repr

/-- `ring_buffer_init`: head = tail = 0, all slots zeroed. -/
def ring_buffer_init : simtemp_ring_buffer :=
  { samples := List.replicate RING_BUFFER_SIZE sample_zero, head := 0, tail := 0 }

/-- `ring_buffer_is_empty`: `head == tail`. -/
def ring_buffer_is_empty (rb : simtemp_ring_buffer) : Bool :=
  rb.head == rb.tail

/-- `ring_buffer_is_full`: `((head + 1) & (RING_BUFFER_SIZE - 1)) == tail`. -/
def ring_buffer_is_full (rb : simtemp_ring_buffer) : Bool :=
  rb_mask (rb.head + 1) == rb.tail

/-- `ring_buffer_put`: when full, advance the tail (dropping the oldest
record), then write the sample at the head and advance the head.  The C
function always returns 0. -/
def ring_buffer_put (rb : simtemp_ring_buffer) (s : simtemp_sample) :
    simtemp_ring_buffer :=
  let rb1 := if ring_buffer_is_full rb then
               { rb with tail := rb_mask (rb.tail + 1) }
             else rb
  { rb1 with samples := rb1.samples.set rb1.head s, head := rb_mask (rb1.head + 1) }

/-- `ring_buffer_get`: `none` (C: `-EAGAIN`) when empty, otherwise the record
at the tail, with the tail advanced. -/
def ring_buffer_get (rb : simtemp_ring_buffer) :
    Option simtemp_sample × simtemp_ring_buffer :=
  if ring_buffer_is_empty rb then (none, rb)
  else (some (rb.samples.getD rb.tail sample_zero),
        { rb with tail := rb_mask (rb.tail + 1) })

/-- `ring_buffer_has_data`: negation of emptiness. -/
def ring_buffer_has_data (rb : simtemp_ring_buffer) : Bool :=
  !(ring_buffer_is_empty rb)

/-! ## Configuration and sample generation -/

/-- The configuration fields of `struct simtemp_device`: `u32 sampling_ms`,
`s32 threshold_mC`, `s32 base_temp_mC`, `u32 temp_variation_mC`. -/
structure simtemp_config where
  sampling_ms : Nat
  threshold_mC : Int
  base_temp_mC : Int
  temp_variation_mC : Nat
deriving DecidableEq, Repr

/-- `simtemp_generate_sample`, given the current monotonic clock value `now`
(`ktime_get_ns()`, a `u64`) and the raw rng draw `r` (`get_random_u32()`).
The C computes, in `u32`/`s32` arithmetic:
`variation = (s32)(r % (2*temp_variation_mC + 1)) - temp_variation_mC`
(the subtraction is performed in `u32` after the usual conversions and the
result is reinterpreted as `s32`), then `temp_mC = base_temp_mC + variation`
(the `s32` addition is modelled as wrapping), sets `NEW_SAMPLE`, and ORs in
`THRESHOLD_EXCEEDED` when `temp_mC > threshold_mC` strictly. -/
def simtemp_generate_sample (dev : simtemp_config) (now r : Nat) :
    simtemp_sample :=
  let timestamp := now % U64_MOD
  let random_val := r % U32_MOD
  let modulus := (2 * dev.temp_variation_mC + 1) % U32_MOD
  let m := random_val % modulus
  let variation : Int := wrapS32 ((m : Int) - (dev.temp_variation_mC : Int))
  let temp : Int := wrapS32 (dev.base_temp_mC + variation)
  let flags0 := SIMTEMP_FLAG_NEW_SAMPLE
  let flags := if temp > dev.threshold_mC then
                 flags0 ||| SIMTEMP_FLAG_THRESHOLD_EXCEEDED
               else flags0
  { timestamp_ns := timestamp, temp_mC := temp, flags := flags }

/-! ## Probe (`simtemp_probe`), remove, read, poll -/

/-- The four `u32` values obtained from the device tree by
`of_property_read_u32` in `simtemp_probe` (0 when a property is absent,
since the device structure is `devm_kzalloc`ed). -/
structure raw_dt_config where
  sampling_ms : Nat
  threshold_mC : Nat
  base_temp_mC : Nat
  temp_variation_mC : Nat
deriving DecidableEq, Repr

/-- The configuration resolution performed by `simtemp_probe`: each field read
as zero is replaced by its default (100 / 45000 / 35000 / 10000); any nonzero
value is kept unchanged (the two `s32` fields reinterpret the `u32` bit
pattern).  No range or overflow check is performed. -/
def simtemp_probe_config (raw : raw_dt_config) : simtemp_config :=
  { sampling_ms :=
      if raw.sampling_ms % U32_MOD = 0 then 100 else raw.sampling_ms % U32_MOD,
    threshold_mC :=
      if toS32 raw.threshold_mC = 0 then 45000 else toS32 raw.threshold_mC,
    base_temp_mC :=
      if toS32 raw.base_temp_mC = 0 then 35000 else toS32 raw.base_temp_mC,
    temp_variation_mC :=
      if raw.temp_variation_mC % U32_MOD = 0 then 10000
      else raw.temp_variation_mC % U32_MOD }

/-- The device state assembled by `simtemp_probe`: the resolved configuration,
an empty ring buffer, and the started periodic timer. -/
structure simtemp_device where
  cfg : simtemp_config
  ring_buf : simtemp_ring_buffer
  timer_active : Bool
deriving DecidableEq, Repr

/-- Outcome of `simtemp_probe`. -/
inductive ProbeResult where
  | ok (dev : simtemp_device)
  | err (code : Int)
deriving DecidableEq, Repr

/-- `-EINVAL`, the errno that would surface an invalid configuration
(`INVALID_CONFIG` in the specification's vocabulary). -/
def EINVAL : Int := 22

/-- `-EAGAIN` (`WOULD_BLOCK`). -/
def EAGAIN : Int := 11

/-- `-ENODEV` (`DEVICE_GONE`). -/
def ENODEV : Int := 19

/-- `-EFAULT` (bad user buffer). -/
def EFAULT : Int := 14

/-- `-ERESTARTSYS` (`INTERRUPTED`, returned by
`wait_event_interruptible` on a signal). -/
def ERESTARTSYS : Int := 512

/-- `simtemp_probe`: reads the device-tree properties with zero-replaced-by-
default resolution, initializes the ring buffer empty, initializes the wait
queue, registers the misc device (the only failure point, modelled by
`misc_register_ok`), and starts the timer.  It performs no configuration
validation and can only fail with the misc-registration error. -/
def simtemp_probe (raw : raw_dt_config) (misc_register_ok : Bool)
    (misc_err : Int) : ProbeResult :=
  let cfg := simtemp_probe_config raw
  if misc_register_ok then
    ProbeResult.ok { cfg := cfg, ring_buf := ring_buffer_init, timer_active := true }
  else ProbeResult.err misc_err

/-- `simtemp_remove`: cancels the timer, wakes any waiting readers
(`wake_up_interruptible`, a pure signal with no state change of its own),
and deregisters the misc device.  The ring buffer, the configuration, and the
`private_data` pointers of already-open handles are untouched. -/
def simtemp_remove (dev : simtemp_device) : simtemp_device :=
  { dev with timer_active := false }

/-- The predicate a reader blocked in `simtemp_read` re-evaluates each time it
is woken: `wait_event_interruptible(dev->wait_queue,
ring_buffer_has_data(&dev->ring_buf))`.  The reader only leaves the wait when
this is true or a signal arrives; it consults no other device state. -/
def simtemp_read_wait_condition (dev : simtemp_device) : Bool :=
  ring_buffer_has_data dev.ring_buf

/-- Result of a `read` call. -/
inductive ReadResult where
  | bytes (n : Nat) (s : simtemp_sample)
  | err (code : Int)
deriving DecidableEq, Repr

/-- What the blocking wait in `simtemp_read` ends with: a delivered signal, or
a wakeup after which the ring buffer is in some state `rb` (the buffer may
have been refilled by the producer or drained by a racing reader while this
reader was suspended). -/
inductive WakeOutcome where
  | interrupted
  | woke (rb : simtemp_ring_buffer)
deriving DecidableEq, Repr

/-- `simtemp_read`.  `devNull` is the `!dev` test on `filp->private_data`
(false for every handle opened while the device existed); `count` the caller's
buffer length; `nonblock` the `O_NONBLOCK` flag; `wake` resolves the blocking
wait when it is reached; `copyOk` whether `copy_to_user` succeeds.  Returns
the result and the ring-buffer state left behind. -/
def simtemp_read (devNull : Bool) (rb : simtemp_ring_buffer) (count : Nat)
    (nonblock : Bool) (wake : WakeOutcome) (copyOk : Bool) :
    ReadResult × simtemp_ring_buffer :=
  if devNull then (ReadResult.err (-ENODEV), rb)
  else if count < SAMPLE_SIZE then (ReadResult.err (-EINVAL), rb)
  else
    match ring_buffer_get rb with
    | (some s, rb') =>
        if copyOk then (ReadResult.bytes SAMPLE_SIZE s, rb')
        else (ReadResult.err (-EFAULT), rb')
    | (none, rb') =>
        if nonblock then (ReadResult.err (-EAGAIN), rb')
        else
          match wake with
          | WakeOutcome.interrupted => (ReadResult.err (-ERESTARTSYS), rb')
          | WakeOutcome.woke rb2 =>
              match ring_buffer_get rb2 with
              | (some s, rb3) =>
                  if copyOk then (ReadResult.bytes SAMPLE_SIZE s, rb3)
                  else (ReadResult.err (-EFAULT), rb3)
              | (none, rb3) => (ReadResult.err (-EAGAIN), rb3)

/-- Does a read result signal device disappearance (`-ENODEV`) or 0-length
EOF? -/
def ReadResult.isGoneOrEof : ReadResult → Bool
  | ReadResult.err c => c == -ENODEV
  | ReadResult.bytes n _ => n == 0

/-- `POLLIN`. -/
def POLLIN : Nat := 0x001

/-- `POLLRDNORM`. -/
def POLLRDNORM : Nat := 0x040

/-- `POLLERR`. -/
def POLLERR : Nat := 0x008

/-- The observable steps `simtemp_poll` performs, in program order. -/
inductive PollEvent where
  | poll_wait
  | check_has_data (result : Bool)
deriving DecidableEq, Repr

/-- `simtemp_poll`: on a null `private_data` it returns `POLLERR` at once;
otherwise it first registers the caller on the wait queue (`poll_wait`) and
only then checks `ring_buffer_has_data`, returning `POLLIN | POLLRDNORM` when
data is available.  The event list records the two steps in source order. -/
def simtemp_poll (devNull : Bool) (dev : simtemp_device) :
    List PollEvent × Nat :=
  if devNull then ([], POLLERR)
  else
    let events1 := [PollEvent.poll_wait]
    let hasData := ring_buffer_has_data dev.ring_buf
    let events := events1 ++ [PollEvent.check_has_data hasData]
    let mask := if hasData then POLLIN ||| POLLRDNORM else 0
    (events, mask)

/-! ## Ring-buffer abstraction

The valid window of a ring buffer is the list of records between the tail
(inclusive) and the head (exclusive), oldest first.  The abstract model of the
buffer is that list; `queue_put`/`queue_get` are the specification-level
drop-oldest FIFO operations the concrete code refines. -/

/-- Number of resident records. -/
def rb_count (rb : simtemp_ring_buffer) : Nat :=
  (rb.head + RING_BUFFER_SIZE - rb.tail) % RING_BUFFER_SIZE

/-- The resident records, oldest (tail) first. -/
def rb_contents (rb : simtemp_ring_buffer) : List simtemp_sample :=
  (List.range (rb_count rb)).map
    (fun i => rb.samples.getD ((rb.tail + i) % RING_BUFFER_SIZE) sample_zero)

/-- Structural well-formedness: indices in range, backing store of full size. -/
def rb_wf (rb : simtemp_ring_buffer) : Prop :=
  rb.head < RING_BUFFER_SIZE ∧ rb.tail < RING_BUFFER_SIZE ∧
    rb.samples.length = RING_BUFFER_SIZE

/-- The buffer stores at most `RING_BUFFER_SIZE - 1` records. -/
def CAPACITY : Nat := RING_BUFFER_SIZE - 1

/-- Abstract drop-oldest put. -/
def queue_put (q : List simtemp_sample) (s : simtemp_sample) :
    List simtemp_sample :=
  (if q.length = CAPACITY then q.drop 1 else q) ++ [s]

/-- Abstract FIFO get. -/
def queue_get (q : List simtemp_sample) :
    Option simtemp_sample × List simtemp_sample :=
  match q with
  | [] => (none, [])
  | x :: xs => (some x, xs)

/-! ## Operation traces

A trace is a list of `put`/`get` operations applied from the freshly
initialized state; the run records the buffer, the records delivered to the
consumer in order, and the records dropped by overflow in order. -/

/-- One ring-buffer operation. -/
inductive RbOp where
  | put (s : simtemp_sample)
  | get
deriving DecidableEq, Repr

/-- Concrete run state. -/
structure RunState where
  rb : simtemp_ring_buffer
  delivered : List simtemp_sample
  dropped : List simtemp_sample
deriving DecidableEq, Repr

/-- One concrete step.  A full `put` drops the record at the tail (the
oldest); a successful `get` appends the returned record to `delivered`. -/
def rb_step (st : RunState) : RbOp → RunState
  | RbOp.put s =>
      let dropped' := if ring_buffer_is_full st.rb then
                        st.dropped ++ [st.rb.samples.getD st.rb.tail sample_zero]
                      else st.dropped
      { st with rb := ring_buffer_put st.rb s, dropped := dropped' }
  | RbOp.get =>
      match ring_buffer_get st.rb with
      | (none, rb') => { st with rb := rb' }
      | (some s, rb') => { st with rb := rb', delivered := st.delivered ++ [s] }

/-- Run a trace from the initialized empty buffer. -/
def rb_run (ops : List RbOp) : RunState :=
  ops.foldl rb_step { rb := ring_buffer_init, delivered := [], dropped := [] }

/-- Abstract run state. -/
structure QRunState where
  q : List simtemp_sample
  delivered : List simtemp_sample
  dropped : List simtemp_sample
deriving DecidableEq, Repr

/-- One abstract step. -/
def q_step (st : QRunState) : RbOp → QRunState
  | RbOp.put s =>
      let dropped' := if st.q.length = CAPACITY then
                        st.dropped ++ [st.q.headD sample_zero]
                      else st.dropped
      { st with q := queue_put st.q s, dropped := dropped' }
  | RbOp.get =>
      match queue_get st.q with
      | (none, q') => { st with q := q' }
      | (some s, q') => { st with q := q', delivered := st.delivered ++ [s] }

/-- Run a trace through the abstract model. -/
def q_run (ops : List RbOp) : QRunState :=
  ops.foldl q_step { q := [], delivered := [], dropped := [] }

/-- The records put by a trace, in order. -/
def puts_of (ops : List RbOp) : List simtemp_sample :=
  ops.filterMap (fun op => match op with
    | RbOp.put s => some s
    | RbOp.get => none)

/-! ## List helpers -/

theorem getElem?_drop_add {α : Type} (l : List α) (n i : Nat) :
    (l.drop n)[i]? = l[n + i]? := by
  induction l generalizing n with
  | nil => simp
  | cons x xs ih =>
    cases n with
    | zero => simp
    | succ n => simp [Nat.succ_add, ih]

theorem getD_set_self {α : Type} {l : List α} {i : Nat} (h : i < l.length)
    (a d : α) : (l.set i a).getD i d = a := by
  simp [List.getD_eq_getElem?_getD, List.getElem?_set_self h]

theorem getD_set_ne {α : Type} {l : List α} {i j : Nat} (h : i ≠ j) (a d : α) :
    (l.set i a).getD j d = l.getD j d := by
  simp [List.getD_eq_getElem?_getD, List.getElem?_set_ne h]

/-! ## Refinement of the ring buffer by the abstract drop-oldest queue -/

theorem rb_count_lt (rb : simtemp_ring_buffer) :
    rb_count rb < RING_BUFFER_SIZE := by
  unfold rb_count RING_BUFFER_SIZE
  omega

theorem rb_contents_length (rb : simtemp_ring_buffer) :
    (rb_contents rb).length = rb_count rb := by
  simp [rb_contents]

theorem rb_contents_getElem? (rb : simtemp_ring_buffer) (i : Nat) :
    (rb_contents rb)[i]? =
      if i < rb_count rb
      then some (rb.samples.getD ((rb.tail + i) % RING_BUFFER_SIZE) sample_zero)
      else none := by
  unfold rb_contents
  by_cases h : i < rb_count rb
  · rw [if_pos h, List.getElem?_map, List.getElem?_range h]
    rfl
  · rw [if_neg h, List.getElem?_eq_none]
    simp only [List.length_map, List.length_range]
    omega

/-- `head == tail` iff the buffer holds no records. -/
theorem rb_empty_iff {rb : simtemp_ring_buffer} (h : rb_wf rb) :
    ring_buffer_is_empty rb = true ↔ rb_count rb = 0 := by
  obtain ⟨h1, h2, _⟩ := h
  unfold ring_buffer_is_empty rb_count
  unfold RING_BUFFER_SIZE at *
  simp only [beq_iff_eq]
  omega

/-- `(head + 1) mod N == tail` iff the buffer holds `N - 1` records. -/
theorem rb_full_iff {rb : simtemp_ring_buffer} (h : rb_wf rb) :
    ring_buffer_is_full rb = true ↔ rb_count rb = CAPACITY := by
  obtain ⟨h1, h2, _⟩ := h
  unfold ring_buffer_is_full rb_count CAPACITY
  rw [rb_mask_eq_mod]
  unfold RING_BUFFER_SIZE at *
  simp only [beq_iff_eq]
  omega

theorem rb_put_wf {rb : simtemp_ring_buffer} (h : rb_wf rb)
    (s : simtemp_sample) : rb_wf (ring_buffer_put rb s) := by
  obtain ⟨h1, h2, h3⟩ := h
  unfold ring_buffer_put rb_wf
  by_cases hf : ring_buffer_is_full rb = true <;>
    simp only [hf, if_true, if_false, Bool.false_eq_true, ite_true, ite_false,
      List.length_set, rb_mask_eq_mod] <;>
    unfold RING_BUFFER_SIZE at * <;>
    refine ⟨by omega, by omega, h3⟩

theorem rb_put_head (rb : simtemp_ring_buffer) (s : simtemp_sample) :
    (ring_buffer_put rb s).head = (rb.head + 1) % RING_BUFFER_SIZE := by
  unfold ring_buffer_put
  by_cases hf : ring_buffer_is_full rb = true <;> simp [hf, rb_mask_eq_mod]

theorem rb_put_samples (rb : simtemp_ring_buffer) (s : simtemp_sample) :
    (ring_buffer_put rb s).samples = rb.samples.set rb.head s := by
  unfold ring_buffer_put
  by_cases hf : ring_buffer_is_full rb = true <;> simp [hf]

theorem rb_put_tail_full {rb : simtemp_ring_buffer} (s : simtemp_sample)
    (hf : ring_buffer_is_full rb = true) :
    (ring_buffer_put rb s).tail = (rb.tail + 1) % RING_BUFFER_SIZE := by
  unfold ring_buffer_put
  simp [hf, rb_mask_eq_mod]

theorem rb_put_tail_not_full {rb : simtemp_ring_buffer} (s : simtemp_sample)
    (hf : ¬ ring_buffer_is_full rb = true) :
    (ring_buffer_put rb s).tail = rb.tail := by
  unfold ring_buffer_put
  simp [hf]

/-- A full `put` refines the abstract drop-oldest append. -/
theorem rb_put_contents_full {rb : simtemp_ring_buffer} (h : rb_wf rb)
    (s : simtemp_sample) (hf : ring_buffer_is_full rb = true) :
    rb_contents (ring_buffer_put rb s) = (rb_contents rb).drop 1 ++ [s] := by
  obtain ⟨h1, h2, h3⟩ := h
  have hc0 : (rb.head + 64 - rb.tail) % 64 = 63 := by
    have hc := (rb_full_iff ⟨h1, h2, h3⟩).mp hf
    unfold rb_count RING_BUFFER_SIZE CAPACITY at hc
    exact hc
  unfold RING_BUFFER_SIZE at h1 h2 h3
  have hh := rb_put_head rb s
  have ht := rb_put_tail_full s hf
  have hs := rb_put_samples rb s
  unfold RING_BUFFER_SIZE at hh ht
  have hc' : rb_count (ring_buffer_put rb s) = 63 := by
    unfold rb_count RING_BUFFER_SIZE
    rw [hh, ht]
    omega
  apply List.ext_getElem?
  intro n
  rw [rb_contents_getElem?, hc', ht, hs, List.getElem?_append]
  have hld : ((rb_contents rb).drop 1).length = 62 := by
    rw [List.length_drop, rb_contents_length]
    unfold rb_count RING_BUFFER_SIZE
    omega
  rw [hld]
  by_cases hn1 : n < 62
  · rw [if_pos hn1, if_pos (by omega), getElem?_drop_add, rb_contents_getElem?,
      if_pos (by unfold rb_count RING_BUFFER_SIZE; omega)]
    unfold RING_BUFFER_SIZE
    rw [getD_set_ne (by omega)]
    congr 2
    omega
  · by_cases hn2 : n < 63
    · have hn : n = 62 := by omega
      subst hn
      rw [if_pos (by omega), if_neg (by omega)]
      unfold RING_BUFFER_SIZE
      rw [show ((rb.tail + 1) % 64 + 62) % 64 = rb.head by omega,
        getD_set_self (by omega)]
      simp
    · rw [if_neg (by omega), if_neg (by omega)]
      have : n - 62 ≠ 0 := by omega
      rcases Nat.exists_eq_succ_of_ne_zero this with ⟨m, hm⟩
      rw [hm]
      simp

/-- A non-full `put` refines the abstract append. -/
theorem rb_put_contents_not_full {rb : simtemp_ring_buffer} (h : rb_wf rb)
    (s : simtemp_sample) (hf : ¬ ring_buffer_is_full rb = true) :
    rb_contents (ring_buffer_put rb s) = rb_contents rb ++ [s] := by
  obtain ⟨h1, h2, h3⟩ := h
  have hc0 : (rb.head + 64 - rb.tail) % 64 ≠ 63 := by
    intro hc
    apply hf
    apply (rb_full_iff ⟨h1, h2, h3⟩).mpr
    unfold rb_count RING_BUFFER_SIZE CAPACITY
    exact hc
  unfold RING_BUFFER_SIZE at h1 h2 h3
  have hh := rb_put_head rb s
  have ht := rb_put_tail_not_full s hf
  have hs := rb_put_samples rb s
  unfold RING_BUFFER_SIZE at hh
  have hc' : rb_count (ring_buffer_put rb s) =
      (rb.head + 64 - rb.tail) % 64 + 1 := by
    unfold rb_count RING_BUFFER_SIZE
    rw [hh, ht]
    omega
  apply List.ext_getElem?
  intro n
  rw [rb_contents_getElem?, hc', ht, hs, List.getElem?_append,
    rb_contents_length]
  by_cases hn1 : n < (rb.head + 64 - rb.tail) % 64
  · rw [if_pos (by omega), if_pos (by unfold rb_count RING_BUFFER_SIZE; omega),
      rb_contents_getElem?, if_pos (by unfold rb_count RING_BUFFER_SIZE; omega)]
    unfold RING_BUFFER_SIZE
    rw [getD_set_ne (by omega)]
  · by_cases hn2 : n < (rb.head + 64 - rb.tail) % 64 + 1
    · have hn : n = (rb.head + 64 - rb.tail) % 64 := by omega
      rw [if_pos (by omega), if_neg (by unfold rb_count RING_BUFFER_SIZE; omega)]
      unfold rb_count RING_BUFFER_SIZE
      rw [show (rb.tail + n) % 64 = rb.head by omega, getD_set_self (by omega)]
      rw [show n - (rb.head + 64 - rb.tail) % 64 = 0 by omega]
      simp
    · rw [if_neg (by omega), if_neg (by unfold rb_count RING_BUFFER_SIZE; omega)]
      unfold rb_count RING_BUFFER_SIZE
      have : n - (rb.head + 64 - rb.tail) % 64 ≠ 0 := by omega
      rcases Nat.exists_eq_succ_of_ne_zero this with ⟨m, hm⟩
      rw [hm]
      simp

/-- `queue_get` in head/drop form. -/
theorem queue_get_eq (q : List simtemp_sample) :
    queue_get q = (q.head?, q.drop 1) := by
  cases q <;> simp [queue_get]

/-- `get` on an empty buffer fails and leaves the whole state unchanged. -/
theorem rb_get_empty {rb : simtemp_ring_buffer}
    (h : ring_buffer_is_empty rb = true) : ring_buffer_get rb = (none, rb) := by
  simp [ring_buffer_get, h]

theorem rb_get_wf {rb : simtemp_ring_buffer} (h : rb_wf rb) :
    rb_wf (ring_buffer_get rb).2 := by
  obtain ⟨h1, h2, h3⟩ := h
  unfold ring_buffer_get rb_wf
  unfold RING_BUFFER_SIZE at *
  by_cases he : ring_buffer_is_empty rb = true <;>
    simp [he, rb_mask_eq_mod, RING_BUFFER_SIZE] <;>
    refine ⟨by omega, by omega, h3⟩

/-- `get` refines the abstract FIFO dequeue. -/
theorem rb_get_refines {rb : simtemp_ring_buffer} (h : rb_wf rb) :
    (ring_buffer_get rb).1 = (queue_get (rb_contents rb)).1 ∧
    rb_contents (ring_buffer_get rb).2 = (queue_get (rb_contents rb)).2 := by
  obtain ⟨h1, h2, h3⟩ := h
  rw [queue_get_eq]
  unfold RING_BUFFER_SIZE at h1 h2 h3
  by_cases he : ring_buffer_is_empty rb = true
  · have hc : rb_count rb = 0 := (rb_empty_iff ⟨h1, h2, h3⟩).mp he
    have hnil : rb_contents rb = [] :=
      List.eq_nil_of_length_eq_zero ((rb_contents_length rb).trans hc)
    rw [rb_get_empty he, hnil]
    exact ⟨by simp, by simp [hnil]⟩
  · have hc : rb_count rb ≠ 0 := fun hc =>
      he ((rb_empty_iff ⟨h1, h2, h3⟩).mpr hc)
    have hc0 : (rb.head + 64 - rb.tail) % 64 ≠ 0 := by
      unfold rb_count RING_BUFFER_SIZE at hc
      exact hc
    have hget : ring_buffer_get rb =
        (some (rb.samples.getD rb.tail sample_zero),
          { rb with tail := (rb.tail + 1) % 64 }) := by
      unfold ring_buffer_get
      rw [if_neg (by simp [he]), rb_mask_eq_mod]
      rfl
    have hh2 : (ring_buffer_get rb).2.head = rb.head := by rw [hget]
    have ht2 : (ring_buffer_get rb).2.tail = (rb.tail + 1) % 64 := by rw [hget]
    have hs2 : (ring_buffer_get rb).2.samples = rb.samples := by rw [hget]
    have hcnt' : rb_count (ring_buffer_get rb).2 = rb_count rb - 1 := by
      unfold rb_count
      rw [hh2, ht2]
      unfold rb_count at hc
      unfold RING_BUFFER_SIZE at hc ⊢
      omega
    constructor
    · show (ring_buffer_get rb).1 = (rb_contents rb).head?
      rw [List.head?_eq_getElem?, rb_contents_getElem?,
        if_pos (by unfold rb_count RING_BUFFER_SIZE; omega), hget]
      unfold RING_BUFFER_SIZE
      rw [show (rb.tail + 0) % 64 = rb.tail by omega]
    · show rb_contents (ring_buffer_get rb).2 = (rb_contents rb).drop 1
      apply List.ext_getElem?
      intro n
      rw [rb_contents_getElem?, getElem?_drop_add, rb_contents_getElem?,
        hcnt', ht2, hs2]
      by_cases hn : n < rb_count rb - 1
      · rw [if_pos hn, if_pos (by unfold rb_count RING_BUFFER_SIZE at *; omega)]
        unfold rb_count RING_BUFFER_SIZE at *
        congr 2
        omega
      · rw [if_neg hn, if_neg (by unfold rb_count RING_BUFFER_SIZE at *; omega)]

/-! ## Coupling of the concrete run with the abstract run -/

/-- One concrete run state refines one abstract run state. -/
def coupled (c : RunState) (a : QRunState) : Prop :=
  rb_wf c.rb ∧ rb_contents c.rb = a.q ∧ c.delivered = a.delivered ∧
    c.dropped = a.dropped

theorem rb_step_coupled {c : RunState} {a : QRunState} (h : coupled c a)
    (op : RbOp) : coupled (rb_step c op) (q_step a op) := by
  obtain ⟨hwf, hq, hd, hdr⟩ := h
  cases op with
  | put s =>
    have hlen : a.q.length = rb_count c.rb := by rw [← hq, rb_contents_length]
    unfold coupled
    simp only [rb_step, q_step]
    by_cases hf : ring_buffer_is_full c.rb = true
    · have hc63 : rb_count c.rb = CAPACITY := (rb_full_iff hwf).mp hf
      have hcap : a.q.length = CAPACITY := by rw [hlen]; exact hc63
      have hhead : a.q.headD sample_zero =
          c.rb.samples.getD c.rb.tail sample_zero := by
        rw [← hq, List.headD_eq_head?_getD, List.head?_eq_getElem?,
          rb_contents_getElem?,
          if_pos (by rw [hc63]; unfold CAPACITY RING_BUFFER_SIZE; omega)]
        simp only [Option.getD_some]
        congr 1
        have h2 := hwf.2.1
        unfold RING_BUFFER_SIZE at h2 ⊢
        omega
      refine ⟨rb_put_wf hwf s, ?_, hd, ?_⟩
      · rw [rb_put_contents_full hwf s hf, queue_put, if_pos hcap, hq]
      · rw [if_pos hf, if_pos hcap, hdr, hhead]
    · have hncap : ¬ a.q.length = CAPACITY := by
        rw [hlen]
        intro hc
        exact hf ((rb_full_iff hwf).mpr hc)
      refine ⟨rb_put_wf hwf s, ?_, hd, ?_⟩
      · rw [rb_put_contents_not_full hwf s hf, queue_put, if_neg hncap, hq]
      · rw [if_neg hf, if_neg hncap, hdr]
  | get =>
    obtain ⟨hfst, hsnd⟩ := rb_get_refines hwf
    have hwf' : rb_wf (ring_buffer_get c.rb).2 := rb_get_wf hwf
    rw [hq, queue_get_eq] at hfst hsnd
    rcases hg : ring_buffer_get c.rb with ⟨os, rb'⟩
    rw [hg] at hfst hsnd hwf'
    cases haq : a.q with
    | nil =>
      rw [haq] at hfst hsnd
      simp only [List.head?_nil, List.drop_nil] at hfst hsnd
      subst hfst
      unfold coupled
      simp only [rb_step, q_step, hg, haq, queue_get]
      exact ⟨hwf', by rw [hsnd], hd, hdr⟩
    | cons x xs =>
      rw [haq] at hfst hsnd
      simp only [List.head?_cons, List.drop_succ_cons, List.drop_zero] at hfst hsnd
      subst hfst
      unfold coupled
      simp only [rb_step, q_step, hg, haq, queue_get]
      exact ⟨hwf', hsnd, by rw [hd], hdr⟩

theorem rb_run_coupled_from (ops : List RbOp) (c : RunState) (a : QRunState)
    (h : coupled c a) :
    coupled (ops.foldl rb_step c) (ops.foldl q_step a) := by
  induction ops generalizing c a with
  | nil => exact h
  | cons op ops ih => exact ih _ _ (rb_step_coupled h op)

theorem rb_init_wf : rb_wf ring_buffer_init := by
  unfold rb_wf ring_buffer_init RING_BUFFER_SIZE
  refine ⟨by decide, by decide, by simp⟩

theorem rb_init_contents : rb_contents ring_buffer_init = [] := by
  unfold rb_contents rb_count ring_buffer_init RING_BUFFER_SIZE
  simp

/-- Every trace keeps the concrete run coupled to the abstract run. -/
theorem rb_run_coupled (ops : List RbOp) : coupled (rb_run ops) (q_run ops) := by
  apply rb_run_coupled_from
  exact ⟨rb_init_wf, rb_init_contents, rfl, rfl⟩

/-! ## Abstract-model facts -/

theorem puts_of_cons (op : RbOp) (ops : List RbOp) :
    puts_of (op :: ops) = puts_of [op] ++ puts_of ops := by
  cases op <;> simp [puts_of]

theorem puts_of_put (s : simtemp_sample) : puts_of [RbOp.put s] = [s] := rfl

theorem puts_of_get : puts_of [RbOp.get] = [] := rfl

theorem q_step_props (st : QRunState) (op : RbOp) :
    ((q_step st op).delivered ++ (q_step st op).q).Sublist
      (st.delivered ++ st.q ++ puts_of [op]) ∧
    (q_step st op).delivered.length + (q_step st op).q.length +
        (q_step st op).dropped.length =
      st.delivered.length + st.q.length + st.dropped.length +
        (puts_of [op]).length ∧
    (st.q.length ≤ CAPACITY → (q_step st op).q.length ≤ CAPACITY) := by
  cases op with
  | put s =>
    rw [puts_of_put]
    simp only [q_step, queue_put]
    by_cases hc : st.q.length = CAPACITY
    · rw [if_pos hc, if_pos hc]
      refine ⟨?_, ?_, ?_⟩
      · rw [← List.append_assoc]
        exact ((st.q.drop_sublist 1).append_left st.delivered).append_right [s]
      · unfold CAPACITY RING_BUFFER_SIZE at hc
        simp only [List.length_append, List.length_drop, List.length_cons,
          List.length_nil]
        omega
      · intro _
        unfold CAPACITY RING_BUFFER_SIZE at hc ⊢
        simp only [List.length_append, List.length_drop, List.length_cons,
          List.length_nil]
        omega
    · rw [if_neg hc, if_neg hc]
      refine ⟨?_, ?_, ?_⟩
      · rw [← List.append_assoc]
      · simp only [List.length_append, List.length_cons, List.length_nil]
        omega
      · intro h
        simp only [List.length_append, List.length_cons, List.length_nil]
        omega
  | get =>
    rw [puts_of_get]
    cases hq : st.q with
    | nil =>
      simp only [q_step, hq, queue_get, List.append_nil]
      exact ⟨List.Sublist.refl _, by simp, by simp [hq]⟩
    | cons x xs =>
      simp only [q_step, hq, queue_get, List.append_nil]
      refine ⟨?_, ?_, ?_⟩
      · rw [List.append_assoc, List.singleton_append]
      · simp only [List.length_append, List.length_cons, List.length_nil]
        omega
      · intro h
        simp only [List.length_cons] at h
        omega

theorem q_run_from_props (ops : List RbOp) (st : QRunState) :
    ((ops.foldl q_step st).delivered ++ (ops.foldl q_step st).q).Sublist
      (st.delivered ++ st.q ++ puts_of ops) ∧
    (ops.foldl q_step st).delivered.length + (ops.foldl q_step st).q.length +
        (ops.foldl q_step st).dropped.length =
      st.delivered.length + st.q.length + st.dropped.length +
        (puts_of ops).length ∧
    (st.q.length ≤ CAPACITY → (ops.foldl q_step st).q.length ≤ CAPACITY) := by
  induction ops generalizing st with
  | nil =>
    simp only [List.foldl_nil, puts_of, List.filterMap_nil, List.append_nil]
    exact ⟨List.Sublist.refl _, by simp, fun h => h⟩
  | cons op ops ih =>
    obtain ⟨ihs, ihl, ihc⟩ := ih (q_step st op)
    obtain ⟨hs, hl, hc⟩ := q_step_props st op
    rw [List.foldl_cons]
    refine ⟨?_, ?_, ?_⟩
    · apply ihs.trans
      rw [puts_of_cons op ops, ← List.append_assoc]
      exact hs.append_right (puts_of ops)
    · rw [puts_of_cons op ops, List.length_append]
      omega
    · exact fun h => ihc (hc h)

/-- Properties of every abstract run from the empty state. -/
theorem q_run_props (ops : List RbOp) :
    ((q_run ops).delivered ++ (q_run ops).q).Sublist (puts_of ops) ∧
    (q_run ops).delivered.length + (q_run ops).q.length +
        (q_run ops).dropped.length = (puts_of ops).length ∧
    (q_run ops).q.length ≤ CAPACITY := by
  obtain ⟨hs, hl, hc⟩ := q_run_from_props ops ⟨[], [], []⟩
  refine ⟨by simpa using hs, by simpa using hl, hc (by simp [CAPACITY])⟩

/-- Running only puts keeps the most recent `CAPACITY` records and delivers
nothing. -/
theorem q_run_puts (l : List simtemp_sample) (st : QRunState)
    (h : st.q.length ≤ CAPACITY) :
    ((l.map RbOp.put).foldl q_step st).q =
      (st.q ++ l).drop ((st.q ++ l).length - CAPACITY) ∧
    ((l.map RbOp.put).foldl q_step st).delivered = st.delivered := by
  induction l generalizing st with
  | nil =>
    simp only [List.map_nil, List.foldl_nil, List.append_nil]
    rw [Nat.sub_eq_zero_of_le h]
    simp
  | cons s l ih =>
    simp only [List.map_cons, List.foldl_cons]
    have hq1 : (q_step st (RbOp.put s)).q = queue_put st.q s := by
      simp [q_step]
    have hd1 : (q_step st (RbOp.put s)).delivered = st.delivered := by
      simp [q_step]
    have hcap : (q_step st (RbOp.put s)).q.length ≤ CAPACITY :=
      (q_step_props st (RbOp.put s)).2.2 h
    obtain ⟨ihq, ihd⟩ := ih (q_step st (RbOp.put s)) hcap
    rw [hq1] at ihq
    rw [hd1] at ihd
    refine ⟨?_, ihd⟩
    rw [ihq]
    unfold queue_put
    by_cases hc : st.q.length = CAPACITY
    · rw [if_pos hc]
      cases hq0 : st.q with
      | nil =>
        rw [hq0] at hc
        unfold CAPACITY RING_BUFFER_SIZE at hc
        simp at hc
      | cons x t =>
        rw [hq0] at hc
        simp only [List.length_cons] at hc
        unfold CAPACITY RING_BUFFER_SIZE at hc
        simp only [List.drop_one, List.tail_cons]
        rw [List.append_assoc, List.singleton_append, List.cons_append]
        simp only [List.length_append, List.length_cons]
        rw [show t.length + (l.length + 1) - CAPACITY = l.length from by
          unfold CAPACITY RING_BUFFER_SIZE; omega]
        rw [show t.length + (l.length + 1) + 1 - CAPACITY = l.length + 1 from by
          unfold CAPACITY RING_BUFFER_SIZE; omega]
        rw [List.drop_succ_cons]
    · rw [if_neg hc, List.append_assoc, List.singleton_append]

/-- Running only gets delivers the queue front in order. -/
theorem q_run_gets (n : Nat) (st : QRunState) (h : n ≤ st.q.length) :
    ((List.replicate n RbOp.get).foldl q_step st).delivered =
      st.delivered ++ st.q.take n ∧
    ((List.replicate n RbOp.get).foldl q_step st).q = st.q.drop n := by
  induction n generalizing st with
  | zero => simp
  | succ n ih =>
    cases hq : st.q with
    | nil =>
      rw [hq] at h
      simp at h
    | cons x xs =>
      rw [List.replicate_succ]
      simp only [List.foldl_cons]
      have hstep : q_step st RbOp.get =
          { q := xs, delivered := st.delivered ++ [x], dropped := st.dropped } := by
        simp [q_step, hq, queue_get]
      rw [hstep]
      have hn : n ≤ xs.length := by
        rw [hq] at h
        simp only [List.length_cons] at h
        omega
      obtain ⟨ihd, ihq⟩ :=
        ih { q := xs, delivered := st.delivered ++ [x], dropped := st.dropped }
          hn
      refine ⟨?_, ?_⟩
      · rw [ihd, List.take_succ_cons, List.append_assoc, List.singleton_append]
      · rw [ihq, List.drop_succ_cons]

/-! ## Claim theorems: ring buffer -/

/-- A distinguishable record, used to build concrete traces. -/
def mkSample (i : Nat) : simtemp_sample := ⟨i, 0, 0⟩

/-- C1 (amended): with a single producer and a single consumer, the sequence
of records returned by successful gets is a subsequence of the sequence passed
to put — records arrive in put order and no record occurrence is returned
twice — and when `N + k` records are put before any get (capacity
`N = RING_BUFFER_SIZE`), the following `N - 1` gets return exactly the most
recent `N - 1` records in produced order.  (The original claim's stronger
assertion, that the delivered sequence always equals the put sequence minus a
contiguous prefix, fails once gets interleave with puts; see the
counterexample.) -/
theorem ring_buffer_fifo_delivery :
    (∀ ops : List RbOp, ((rb_run ops).delivered).Sublist (puts_of ops)) ∧
    (∀ l : List simtemp_sample, RING_BUFFER_SIZE ≤ l.length →
      (rb_run (l.map RbOp.put ++ List.replicate CAPACITY RbOp.get)).delivered =
        l.drop (l.length - CAPACITY)) := by
  constructor
  · intro ops
    obtain ⟨_, hq, hd, _⟩ := rb_run_coupled ops
    rw [hd]
    exact (List.sublist_append_left _ _).trans (q_run_props ops).1
  · intro l hl
    obtain ⟨_, hq, hd, _⟩ :=
      rb_run_coupled (l.map RbOp.put ++ List.replicate CAPACITY RbOp.get)
    rw [hd]
    unfold q_run
    rw [List.foldl_append]
    obtain ⟨hpq, hpd⟩ := q_run_puts l ⟨[], [], []⟩ (by simp)
    have hq1 : ((l.map RbOp.put).foldl q_step ⟨[], [], []⟩).q =
        l.drop (l.length - CAPACITY) := by simpa using hpq
    have hlen1 : ((l.map RbOp.put).foldl q_step ⟨[], [], []⟩).q.length =
        CAPACITY := by
      rw [hq1, List.length_drop]
      unfold CAPACITY RING_BUFFER_SIZE at *
      omega
    obtain ⟨hgd, _⟩ :=
      q_run_gets CAPACITY ((l.map RbOp.put).foldl q_step ⟨[], [], []⟩)
        (le_of_eq hlen1.symm)
    rw [hgd, hpd, List.take_of_length_le (le_of_eq hlen1), hq1]
    simp

set_option maxRecDepth 100000 in
/-- Witness for `ring_buffer_fifo_delivery`: 64 puts followed by 63 gets
deliver the 63 most recent records. -/
theorem ring_buffer_fifo_delivery_witness :
    RING_BUFFER_SIZE ≤ ((List.range 64).map mkSample).length ∧
    (rb_run (((List.range 64).map mkSample).map RbOp.put ++
        List.replicate CAPACITY RbOp.get)).delivered =
      ((List.range 64).map mkSample).drop
        (((List.range 64).map mkSample).length - CAPACITY) :=
  ⟨by decide, ring_buffer_fifo_delivery.2 _ (by decide)⟩

/-- The interleaved trace: put records 1..63, get once, put 64 and 65 (the
second overflows, dropping record 2 while record 1 was already delivered),
then drain. -/
def traceC1 : List RbOp :=
  ((List.range 63).map (fun i => RbOp.put (mkSample (i + 1)))) ++
    [RbOp.get, RbOp.put (mkSample 64), RbOp.put (mkSample 65)] ++
    List.replicate 63 RbOp.get

set_option maxRecDepth 100000 in
/-- C1 counterexample: on `traceC1`, the delivered sequence is
`[1, 3, 4, ..., 65]` while the put sequence is `[1, ..., 65]` — the delivered
sequence is not the put sequence minus any contiguous prefix. -/
theorem ring_buffer_fifo_delivery_counterexample :
    ¬ ∃ n : Nat, (rb_run traceC1).delivered = (puts_of traceC1).drop n := by
  rintro ⟨n, h⟩
  have hd : (rb_run traceC1).delivered.length = 64 := by decide
  have hp : (puts_of traceC1).length = 65 := by decide
  have hlen := congrArg List.length h
  rw [List.length_drop, hd, hp] at hlen
  have hn : n = 1 := by omega
  subst hn
  revert h
  decide

/-- C4: starting from the initialized empty state, every sequence of put and
get operations preserves the ring-buffer invariant: `head == tail` iff the
buffer is empty, `(head + 1) mod N == tail` iff it holds `N - 1` records, it
never holds more than `N - 1` records, and the number of records dropped by
overflow equals records produced minus records consumed minus records still
resident. -/
theorem ring_buffer_invariants (ops : List RbOp) :
    rb_wf (rb_run ops).rb ∧
    ((rb_run ops).rb.head = (rb_run ops).rb.tail ↔
      rb_contents (rb_run ops).rb = []) ∧
    (rb_mask ((rb_run ops).rb.head + 1) = (rb_run ops).rb.tail ↔
      (rb_contents (rb_run ops).rb).length = CAPACITY) ∧
    (rb_contents (rb_run ops).rb).length ≤ CAPACITY ∧
    (rb_run ops).dropped.length =
      (puts_of ops).length - (rb_run ops).delivered.length -
        (rb_contents (rb_run ops).rb).length := by
  obtain ⟨hwf, hq, hd, hdr⟩ := rb_run_coupled ops
  obtain ⟨hs, hl, hcap⟩ := q_run_props ops
  refine ⟨hwf, ?_, ?_, ?_, ?_⟩
  · constructor
    · intro hht
      have he : ring_buffer_is_empty (rb_run ops).rb = true := by
        unfold ring_buffer_is_empty
        exact beq_iff_eq.mpr hht
      apply List.eq_nil_of_length_eq_zero
      rw [rb_contents_length]
      exact (rb_empty_iff hwf).mp he
    · intro hnil
      have hc : rb_count (rb_run ops).rb = 0 := by
        rw [← rb_contents_length, hnil]
        rfl
      have he := (rb_empty_iff hwf).mpr hc
      unfold ring_buffer_is_empty at he
      exact beq_iff_eq.mp he
  · constructor
    · intro hft
      have hful : ring_buffer_is_full (rb_run ops).rb = true := by
        unfold ring_buffer_is_full
        exact beq_iff_eq.mpr hft
      rw [rb_contents_length]
      exact (rb_full_iff hwf).mp hful
    · intro hlen
      rw [rb_contents_length] at hlen
      have hful := (rb_full_iff hwf).mpr hlen
      unfold ring_buffer_is_full at hful
      exact beq_iff_eq.mp hful
  · rw [hq]
    exact hcap
  · rw [hdr, hd, hq]
    omega

/-- C10: `ring_buffer_get` on an empty buffer returns the empty-buffer error
(`-EAGAIN`, modelled as `none`) and leaves the buffer state — head, tail, and
all stored records — completely unchanged. -/
theorem ring_buffer_get_empty_noop (rb : simtemp_ring_buffer)
    (h : ring_buffer_is_empty rb = true) :
    ring_buffer_get rb = (none, rb) :=
  rb_get_empty h

/-- Witness for `ring_buffer_get_empty_noop` at the initialized buffer. -/
theorem ring_buffer_get_empty_noop_witness :
    ring_buffer_is_empty ring_buffer_init = true ∧
    ring_buffer_get ring_buffer_init = (none, ring_buffer_init) :=
  ⟨by decide, ring_buffer_get_empty_noop ring_buffer_init (by decide)⟩

/-! ## Claim theorems: sample generator -/

/-- C2: for every configuration satisfying the non-overflow precondition
(variation fits `s32`, `base + variation ≤ INT32_MAX`,
`base - variation ≥ INT32_MIN`), every clock value `now` and every 32-bit rng
output `r`, the generated sample is exactly
`{ timestamp_ns = now, temp_mC = base + (r mod (2·variation + 1) − variation),
flags by the threshold rule }`, and the temperature lies in
`[base − variation, base + variation]`. -/
theorem generate_sample_exact (dev : simtemp_config) (now r : Nat)
    (hnow : now < U64_MOD) (hr : r < U32_MOD)
    (hv : (dev.temp_variation_mC : Int) ≤ S32_MAX)
    (hhi : dev.base_temp_mC + (dev.temp_variation_mC : Int) ≤ S32_MAX)
    (hlo : S32_MIN ≤ dev.base_temp_mC - (dev.temp_variation_mC : Int)) :
    simtemp_generate_sample dev now r =
      { timestamp_ns := now,
        temp_mC := dev.base_temp_mC +
          (((r % (2 * dev.temp_variation_mC + 1) : Nat) : Int) -
            (dev.temp_variation_mC : Int)),
        flags := if dev.base_temp_mC +
              (((r % (2 * dev.temp_variation_mC + 1) : Nat) : Int) -
                (dev.temp_variation_mC : Int)) > dev.threshold_mC
            then SIMTEMP_FLAG_NEW_SAMPLE ||| SIMTEMP_FLAG_THRESHOLD_EXCEEDED
            else SIMTEMP_FLAG_NEW_SAMPLE } ∧
    dev.base_temp_mC - (dev.temp_variation_mC : Int) ≤
        (simtemp_generate_sample dev now r).temp_mC ∧
      (simtemp_generate_sample dev now r).temp_mC ≤
        dev.base_temp_mC + (dev.temp_variation_mC : Int) := by
  have hv' : dev.temp_variation_mC ≤ 2147483647 := by
    unfold S32_MAX at hv
    exact_mod_cast hv
  have hmod : (2 * dev.temp_variation_mC + 1) % U32_MOD =
      2 * dev.temp_variation_mC + 1 := by
    apply Nat.mod_eq_of_lt
    unfold U32_MOD
    omega
  have hrv : r % U32_MOD = r := Nat.mod_eq_of_lt hr
  have hm : r % (2 * dev.temp_variation_mC + 1) <
      2 * dev.temp_variation_mC + 1 :=
    Nat.mod_lt _ (by omega)
  have hvar : wrapS32 (((r % (2 * dev.temp_variation_mC + 1) : Nat) : Int) -
      (dev.temp_variation_mC : Int)) =
      ((r % (2 * dev.temp_variation_mC + 1) : Nat) : Int) -
        (dev.temp_variation_mC : Int) := by
    apply wrapS32_eq_self
    · unfold S32_MIN
      omega
    · unfold S32_MAX
      omega
  have htemp : wrapS32 (dev.base_temp_mC +
      (((r % (2 * dev.temp_variation_mC + 1) : Nat) : Int) -
        (dev.temp_variation_mC : Int))) =
      dev.base_temp_mC +
        (((r % (2 * dev.temp_variation_mC + 1) : Nat) : Int) -
          (dev.temp_variation_mC : Int)) := by
    apply wrapS32_eq_self
    · unfold S32_MIN at hlo ⊢
      omega
    · unfold S32_MAX at hhi ⊢
      omega
  have hgen : simtemp_generate_sample dev now r =
      { timestamp_ns := now,
        temp_mC := dev.base_temp_mC +
          (((r % (2 * dev.temp_variation_mC + 1) : Nat) : Int) -
            (dev.temp_variation_mC : Int)),
        flags := if dev.base_temp_mC +
              (((r % (2 * dev.temp_variation_mC + 1) : Nat) : Int) -
                (dev.temp_variation_mC : Int)) > dev.threshold_mC
            then SIMTEMP_FLAG_NEW_SAMPLE ||| SIMTEMP_FLAG_THRESHOLD_EXCEEDED
            else SIMTEMP_FLAG_NEW_SAMPLE } := by
    simp only [simtemp_generate_sample]
    rw [hrv, hmod, hvar, htemp, Nat.mod_eq_of_lt hnow]
  refine ⟨hgen, ?_, ?_⟩ <;> rw [hgen] <;> simp only [] <;> omega

/-- Witness for `generate_sample_exact` at the default configuration. -/
theorem generate_sample_exact_witness :
    ((42 : Nat) < U64_MOD ∧ (123456 : Nat) < U32_MOD ∧
      (((10000 : Nat) : Int) ≤ S32_MAX) ∧
      ((35000 : Int) + ((10000 : Nat) : Int) ≤ S32_MAX) ∧
      (S32_MIN ≤ (35000 : Int) - ((10000 : Nat) : Int))) ∧
    ((35000 : Int) - ((10000 : Nat) : Int) ≤
        (simtemp_generate_sample ⟨100, 45000, 35000, 10000⟩ 42 123456).temp_mC ∧
      (simtemp_generate_sample ⟨100, 45000, 35000, 10000⟩ 42 123456).temp_mC ≤
        (35000 : Int) + ((10000 : Nat) : Int)) :=
  ⟨⟨by decide, by decide, by decide, by decide, by decide⟩,
    (generate_sample_exact ⟨100, 45000, 35000, 10000⟩ 42 123456 (by decide)
      (by decide) (by decide) (by decide) (by decide)).2⟩

/-- C3: for every generated record, flag bit 0 (`NEW_SAMPLE`) is set; flag
bit 1 (`THRESHOLD_EXCEEDED`) is set iff `temp_mC > threshold_mC` under strict
comparison; and no flag bit outside `{0, 1}` is ever set.  This holds for all
configurations, with no precondition. -/
theorem generate_sample_flags (dev : simtemp_config) (now r : Nat) :
    (simtemp_generate_sample dev now r).flags.testBit 0 = true ∧
    ((simtemp_generate_sample dev now r).flags.testBit 1 = true ↔
      (simtemp_generate_sample dev now r).temp_mC > dev.threshold_mC) ∧
    (∀ i : Nat, 2 ≤ i →
      (simtemp_generate_sample dev now r).flags.testBit i = false) := by
  simp only [simtemp_generate_sample]
  by_cases hc : wrapS32 (dev.base_temp_mC +
      wrapS32 (((r % U32_MOD % ((2 * dev.temp_variation_mC + 1) % U32_MOD) :
        Nat) : Int) - (dev.temp_variation_mC : Int))) > dev.threshold_mC
  · rw [if_pos hc]
    refine ⟨by decide, ⟨fun _ => hc, fun _ => by decide⟩, ?_⟩
    intro i hi
    apply Nat.testBit_lt_two_pow
    calc SIMTEMP_FLAG_NEW_SAMPLE ||| SIMTEMP_FLAG_THRESHOLD_EXCEEDED < 2 ^ 2 :=
          by decide
      _ ≤ 2 ^ i := Nat.pow_le_pow_right (by omega) hi
  · rw [if_neg hc]
    refine ⟨by decide,
      ⟨fun hbit => absurd hbit (by decide), fun htemp => absurd htemp hc⟩, ?_⟩
    intro i hi
    apply Nat.testBit_lt_two_pow
    calc SIMTEMP_FLAG_NEW_SAMPLE < 2 ^ 2 := by decide
      _ ≤ 2 ^ i := Nat.pow_le_pow_right (by omega) hi

/-- Witness for `generate_sample_flags` at a concrete configuration
(instantiating the reserved-bit conjunct at bit 2). -/
theorem generate_sample_flags_witness :
    (2 ≤ 2) ∧
    (simtemp_generate_sample ⟨100, 45000, 35000, 10000⟩ 7 99).flags.testBit 2 =
      false :=
  ⟨by decide,
    (generate_sample_flags ⟨100, 45000, 35000, 10000⟩ 7 99).2.2 2 (by decide)⟩

/-! ## Claim theorems: probe, read, poll, remove -/

theorem toS32_ne_zero {n : Nat} (h : n < U32_MOD) (hne : n ≠ 0) :
    toS32 n ≠ 0 := by
  unfold toS32 U32_MOD at *
  split <;> omega

/-- C5 counterexample: the configuration `base_temp_mC = INT32_MAX`,
`variation_mC = 10000` — whose temperature arithmetic overflows
(`base + variation > INT32_MAX`) — is accepted: probe resolves it unchanged
and starts the device instead of failing with INVALID_CONFIG. -/
theorem probe_accepts_overflow_config :
    simtemp_probe ⟨100, 45000, 2147483647, 10000⟩ true 0 =
      ProbeResult.ok
        { cfg := ⟨100, 45000, 2147483647, 10000⟩,
          ring_buf := ring_buffer_init, timer_active := true } ∧
    (2147483647 : Int) + 10000 > S32_MAX := by
  exact ⟨by decide, by decide⟩

/-- C5 (amended): `simtemp_probe` performs no configuration validation and
never fails with INVALID_CONFIG: whenever device registration succeeds it
accepts every supplied configuration — including those whose temperature
arithmetic can overflow — replacing zero fields by defaults, so the effective
sampling interval is always a positive integer. -/
theorem probe_never_invalid_config (raw : raw_dt_config) (merr : Int) :
    simtemp_probe raw true merr =
      ProbeResult.ok
        { cfg := simtemp_probe_config raw, ring_buf := ring_buffer_init,
          timer_active := true } ∧
    0 < (simtemp_probe_config raw).sampling_ms := by
  refine ⟨rfl, ?_⟩
  simp only [simtemp_probe_config]
  by_cases h : raw.sampling_ms % U32_MOD = 0
  · rw [if_pos h]
    omega
  · rw [if_neg h]
    omega

/-- C9: each configuration field read as zero is silently replaced by its
default (100 ms, 45000, 35000, 10000); nonzero values pass through with no
range check (the two signed fields reinterpret the `u32` bit pattern); hence
the effective configuration always has a positive sampling interval and
positive variation, and no field is ever zero. -/
theorem probe_config_defaults (raw : raw_dt_config)
    (h1 : raw.sampling_ms < U32_MOD) (h2 : raw.threshold_mC < U32_MOD)
    (h3 : raw.base_temp_mC < U32_MOD) (h4 : raw.temp_variation_mC < U32_MOD) :
    (raw.sampling_ms = 0 → (simtemp_probe_config raw).sampling_ms = 100) ∧
    (raw.threshold_mC = 0 → (simtemp_probe_config raw).threshold_mC = 45000) ∧
    (raw.base_temp_mC = 0 → (simtemp_probe_config raw).base_temp_mC = 35000) ∧
    (raw.temp_variation_mC = 0 →
      (simtemp_probe_config raw).temp_variation_mC = 10000) ∧
    (raw.sampling_ms ≠ 0 →
      (simtemp_probe_config raw).sampling_ms = raw.sampling_ms) ∧
    (raw.threshold_mC ≠ 0 →
      (simtemp_probe_config raw).threshold_mC = toS32 raw.threshold_mC) ∧
    (raw.base_temp_mC ≠ 0 →
      (simtemp_probe_config raw).base_temp_mC = toS32 raw.base_temp_mC) ∧
    (raw.temp_variation_mC ≠ 0 →
      (simtemp_probe_config raw).temp_variation_mC = raw.temp_variation_mC) ∧
    0 < (simtemp_probe_config raw).sampling_ms ∧
    0 < (simtemp_probe_config raw).temp_variation_mC ∧
    (simtemp_probe_config raw).threshold_mC ≠ 0 ∧
    (simtemp_probe_config raw).base_temp_mC ≠ 0 := by
  have hms : raw.sampling_ms % U32_MOD = raw.sampling_ms :=
    Nat.mod_eq_of_lt h1
  have hvv : raw.temp_variation_mC % U32_MOD = raw.temp_variation_mC :=
    Nat.mod_eq_of_lt h4
  have hth0 : toS32 raw.threshold_mC = 0 ↔ raw.threshold_mC = 0 := by
    unfold toS32 U32_MOD at *
    split <;> omega
  have hb0 : toS32 raw.base_temp_mC = 0 ↔ raw.base_temp_mC = 0 := by
    unfold toS32 U32_MOD at *
    split <;> omega
  simp only [simtemp_probe_config, hms, hvv]
  refine ⟨?_, ?_, ?_, ?_, ?_, ?_, ?_, ?_, ?_, ?_, ?_, ?_⟩
  · intro h
    rw [if_pos h]
  · intro h
    rw [if_pos (hth0.mpr h)]
  · intro h
    rw [if_pos (hb0.mpr h)]
  · intro h
    rw [if_pos h]
  · intro h
    rw [if_neg h]
  · intro h
    rw [if_neg (fun hc => h (hth0.mp hc))]
  · intro h
    rw [if_neg (fun hc => h (hb0.mp hc))]
  · intro h
    rw [if_neg h]
  · by_cases h : raw.sampling_ms = 0
    · rw [if_pos h]
      omega
    · rw [if_neg h]
      omega
  · by_cases h : raw.temp_variation_mC = 0
    · rw [if_pos h]
      omega
    · rw [if_neg h]
      omega
  · by_cases h : toS32 raw.threshold_mC = 0
    · rw [if_pos h]
      omega
    · rw [if_neg h]
      exact h
  · by_cases h : toS32 raw.base_temp_mC = 0
    · rw [if_pos h]
      omega
    · rw [if_neg h]
      exact h

/-- Witness for `probe_config_defaults`: the all-absent configuration gets
the defaults, and a nonzero threshold passes through unchanged. -/
theorem probe_config_defaults_witness :
    (((0 : Nat) < U32_MOD ∧ (7 : Nat) < U32_MOD) ∧
      (simtemp_probe_config ⟨0, 0, 0, 0⟩).sampling_ms = 100) ∧
    (simtemp_probe_config ⟨7, 5, 2, 3⟩).threshold_mC = toS32 5 :=
  ⟨⟨⟨by decide, by decide⟩,
    (probe_config_defaults ⟨0, 0, 0, 0⟩ (by decide) (by decide) (by decide)
        (by decide)).1 rfl⟩,
    (probe_config_defaults ⟨7, 5, 2, 3⟩ (by decide) (by decide) (by decide)
        (by decide)).2.2.2.2.2.1 (by decide)⟩

/-- C7: a read with a buffer shorter than 16 bytes fails with
BUFFER_TOO_SMALL (`-EINVAL`), for every handle with non-null private data;
and every successful read returns exactly one 16-byte record — never a
partial record, never more than one. -/
theorem read_framing (devNull : Bool) (rb : simtemp_ring_buffer) (count : Nat)
    (nonblock : Bool) (wake : WakeOutcome) (copyOk : Bool) :
    (devNull = false → count < SAMPLE_SIZE →
      (simtemp_read devNull rb count nonblock wake copyOk).1 =
        ReadResult.err (-EINVAL)) ∧
    (∀ n s, (simtemp_read devNull rb count nonblock wake copyOk).1 =
        ReadResult.bytes n s → n = SAMPLE_SIZE) := by
  constructor
  · intro hdev hcount
    subst hdev
    unfold simtemp_read
    rw [if_neg (by simp), if_pos hcount]
  · intro n s h
    unfold simtemp_read at h
    repeat' split at h
    all_goals simp_all

/-- Witness for `read_framing`: a 10-byte read fails with `-EINVAL`; reading
a one-record buffer returns 16 bytes. -/
theorem read_framing_witness :
    (simtemp_read false ring_buffer_init 10 true WakeOutcome.interrupted
        true).1 = ReadResult.err (-EINVAL) ∧
    (16 : Nat) = SAMPLE_SIZE :=
  ⟨(read_framing false ring_buffer_init 10 true WakeOutcome.interrupted
      true).1 rfl (by decide),
    (read_framing false (ring_buffer_put ring_buffer_init (mkSample 1)) 16
      false WakeOutcome.interrupted true).2 16 (mkSample 1) (by decide)⟩

/-- C6 (code bug): after `simtemp_remove` (stop) the code wakes waiting
readers but nothing a reader consults records the removal: the predicate a
blocked reader re-evaluates on wakeup is `ring_buffer_has_data` alone (false
on the empty buffer, so the reader suspends again instead of completing), and
a read issued on a handle opened before the stop (non-null `private_data`)
can never return `-ENODEV` (DEVICE_GONE) or a 0-byte EOF. -/
theorem remove_leaves_readers_blocked :
    (∀ dev : simtemp_device,
      simtemp_read_wait_condition (simtemp_remove dev) =
        simtemp_read_wait_condition dev) ∧
    simtemp_read_wait_condition
      (simtemp_remove
        { cfg := ⟨100, 45000, 35000, 10000⟩, ring_buf := ring_buffer_init,
          timer_active := true }) = false ∧
    (∀ (rb : simtemp_ring_buffer) (count : Nat) (nonblock : Bool)
        (wake : WakeOutcome) (copyOk : Bool),
      ((simtemp_read false rb count nonblock wake copyOk).1).isGoneOrEof =
        false) := by
  refine ⟨fun dev => rfl, by decide, ?_⟩
  intro rb count nonblock wake copyOk
  unfold simtemp_read
  rw [if_neg (by simp)]
  repeat' split
  all_goals simp [ReadResult.isGoneOrEof, ENODEV, EINVAL, EAGAIN, EFAULT,
    ERESTARTSYS, SAMPLE_SIZE]

/-- C8: whenever `simtemp_poll` performs the buffer-emptiness check, the
caller has already been registered on the readiness wait queue at a strictly
earlier position of the event trace — register-before-check.  (With a null
device the function returns `POLLERR` and performs no check at all.) -/
theorem poll_register_before_check (devNull : Bool) (dev : simtemp_device)
    (j : Nat) (b : Bool)
    (hj : (simtemp_poll devNull dev).1[j]? =
      some (PollEvent.check_has_data b)) :
    ∃ i, i < j ∧
      (simtemp_poll devNull dev).1[i]? = some PollEvent.poll_wait := by
  cases devNull with
  | true =>
    simp [simtemp_poll] at hj
  | false =>
    simp only [simtemp_poll, Bool.false_eq_true, if_false,
      List.singleton_append] at hj ⊢
    match j with
    | 0 => simp at hj
    | 1 => exact ⟨0, by omega, rfl⟩
    | (m + 2) => simp at hj

/-- Witness for `poll_register_before_check`: polling the freshly probed
device checks emptiness at trace position 1, registration precedes it. -/
theorem poll_register_before_check_witness :
    ∃ i, i < 1 ∧
      (simtemp_poll false
          { cfg := ⟨100, 45000, 35000, 10000⟩, ring_buf := ring_buffer_init,
            timer_active := true }).1[i]? = some PollEvent.poll_wait :=
  poll_register_before_check false
    { cfg := ⟨100, 45000, 35000, 10000⟩, ring_buf := ring_buffer_init,
      timer_active := true } 1 false (by decide)

end NxpSimtemp
